import Mathlib

/-!
Shallow embedding of the UMEM + ring-queue subsystem of `src/umem/mod.rs`
(crate `xsk-rs`), together with proofs of the specification's claims about it.

Conventions of the embedding:
* Rust `u32` / `u64` / `usize` values are `Nat`; where the Rust arithmetic is
  32-bit (and wraps in release builds), the reduction `% 2 ^ 32` is explicit.
  The crate assumes a 64-bit architecture (see the comments in the source), so
  `usize`/`u64` conversions are identity on the values involved.
* The bytes of the memory-mapped region are a function `Nat → Nat`
  (byte offset ↦ byte value); a Rust byte-slice view of the region is the
  list of bytes it denotes.
* `&mut self` methods are state-passing: they return the new state next to
  the Rust return value.
* A Rust `panic!` / failed `unwrap` is `Option.none`.
* `VecDeque<FrameDesc>` is `List FrameDesc`, front at the head.
* The libbpf ring primitives (`_xsk_prod_nb_free`, `_xsk_ring_prod__reserve`,
  `_xsk_ring_prod__fill_addr`, `_xsk_ring_prod__submit`, `_xsk_ring_cons__peek`,
  `_xsk_ring_cons__comp_addr`, `_xsk_ring_cons__release`,
  `_xsk_ring_prod__needs_wakeup`) are an external collaborator; they are
  modelled from the spec's description of the ring protocol (§4.4/§4.5, §6):
  a ring is a cursor pair plus a power-of-two sized slot array indexed by
  masked cursor values.  Ring cursors are `Nat` (the u32 cursors wrap mod
  2^32; since the ring size is a power of two dividing 2^32, masked-index
  arithmetic agrees with the unbounded model).
-/

set_option autoImplicit false

namespace Xsk

/-- Modulus of Rust u32 arithmetic. -/
def U32_MOD : ℕ := 2 ^ 32

/-- Struct `FrameDesc { addr: u64, len: u32, options: u32 }` from the source. -/
structure FrameDesc where
  addr : ℕ
  len : ℕ
  options : ℕ
  deriving DecidableEq

/-- Enum `UmemError` from the source. -/
inductive UmemError where
  | invalidFrameAddr
  | invalidDataLen
  deriving DecidableEq

/-- Struct `Umem` from the source.  `mem` is the byte content of the owned
`mmap_area`; the `Box<xsk_umem>` kernel handle has no observable content and
is omitted. -/
structure Umem where
  mem : ℕ → ℕ
  frameDescs : Option (List FrameDesc)
  frame_count : ℕ
  frame_size : ℕ

/-- The bound the source compares a frame address against:
`(frame_count - 1)` evaluated in u32 arithmetic (release builds wrap on
underflow).  For `frame_count` in `[1, 2^32)` this is `frame_count - 1`. -/
def frameAddrBound (frame_count : ℕ) : ℕ :=
  (frame_count + (U32_MOD - 1)) % U32_MOD

/-- `Umem::frame_ref` from the source: rejects `addr` iff
`addr > frame_count - 1`, otherwise returns the `frame_size`-byte slice of the
mapped region starting at byte offset `addr`. -/
def Umem.frame_ref (u : Umem) (addr : ℕ) : Except UmemError (List ℕ) :=
  if frameAddrBound u.frame_count < addr then
    .error .invalidFrameAddr
  else
    .ok ((List.range u.frame_size).map fun i => u.mem (addr + i))

/-- `Umem::frame_ref_mut` from the source: same address check and same slice
denotation as `frame_ref`; mutation through the returned slice is modelled at
the call site (`copy_data_to_frame`) as a `mem` update. -/
def Umem.frame_ref_mut (u : Umem) (addr : ℕ) : Except UmemError (List ℕ) :=
  if frameAddrBound u.frame_count < addr then
    .error .invalidFrameAddr
  else
    .ok ((List.range u.frame_size).map fun i => u.mem (addr + i))

/-- Effect of `frame_ref[..data.len()].copy_from_slice(data)`: bytes
`[addr, addr + data.length)` of the region become `data`, all others keep
their value. -/
def Umem.writeBytes (u : Umem) (addr : ℕ) (data : List ℕ) : Umem :=
  { u with
    mem := fun o =>
      if addr ≤ o ∧ o < addr + data.length then data.getD (o - addr) 0
      else u.mem o }

/-- `Umem::copy_data_to_frame` from the source: `InvalidDataLen` when
`data.len() > frame_size`; then the `frame_ref_mut` check via `?`; then the
copy into the leading bytes of the frame. -/
def Umem.copy_data_to_frame (u : Umem) (addr : ℕ) (data : List ℕ) :
    Umem × Except UmemError Unit :=
  if u.frame_size < data.length then
    (u, .error .invalidDataLen)
  else
    match u.frame_ref_mut addr with
    | .error e => (u, .error e)
    | .ok _ => (u.writeBytes addr data, .ok ())

/-- `Umem::consume_frame_descs` from the source: `self.frame_descs.take()`. -/
def Umem.consume_frame_descs (u : Umem) : Option (List FrameDesc) × Umem :=
  (u.frameDescs, { u with frameDescs := none })

/-- The descriptor-pool loop of `UmemBuilderWithMmap::create_umem`
(source lines 116-124): for `i in 0..frame_count`, push
`FrameDesc { addr: i * frame_size, len: 0, options: 0 }`.  Both `i` and
`frame_size` are `u32` in the source, so the multiplication is 32-bit and
wraps in release builds (overflow panics in debug builds). -/
def createFrameDescs (frame_count frame_size : ℕ) : List FrameDesc :=
  (List.range frame_count).map fun i =>
    { addr := (i * frame_size) % U32_MOD, len := 0, options := 0 }

/-- Modelled from the spec: `Config` (src/umem/config.rs is not among the
sources).  All fields are u32 except the flag. -/
structure Config where
  frame_size : ℕ
  frame_count : ℕ
  frame_headroom : ℕ
  fill_queue_size : ℕ
  comp_queue_size : ℕ
  use_huge_pages : Bool

/-- Power-of-two test on a `Nat`. -/
def isPow2 (n : ℕ) : Bool :=
  (n != 0) && (n &&& (n - 1) == 0)

/-- Minimum XDP chunk size (kernel constant, 2048 bytes). -/
def XDP_UMEM_MIN_CHUNK_SIZE : ℕ := 2048

/-- Modelled from the spec (§3, §4.1): a valid `Config` has a power-of-two
`frame_size` at least the minimum chunk size, `frame_count > 0`,
`frame_headroom < frame_size`, power-of-two queue sizes, all fields in u32
range, and `frame_count × frame_size` fitting the native 64-bit address
width. -/
def Config.valid (c : Config) : Bool :=
  isPow2 c.frame_size &&
  decide (XDP_UMEM_MIN_CHUNK_SIZE ≤ c.frame_size) &&
  decide (0 < c.frame_count) &&
  decide (c.frame_headroom < c.frame_size) &&
  isPow2 c.fill_queue_size &&
  isPow2 c.comp_queue_size &&
  decide (c.frame_size < U32_MOD) &&
  decide (c.frame_count < U32_MOD) &&
  decide (c.frame_headroom < U32_MOD) &&
  decide (c.fill_queue_size < U32_MOD) &&
  decide (c.comp_queue_size < U32_MOD) &&
  decide (c.frame_count * c.frame_size < 2 ^ 64)

/-- Modelled from the spec (§4.3 step 1): `Config::umem_len`, the total byte
length of the region to map, is `frame_count × frame_size`. -/
def Config.umem_len (c : Config) : ℕ :=
  c.frame_count * c.frame_size

/-- Modelled from the spec (§4.2): `MmapArea` owns a span of `len` bytes. -/
structure MmapArea where
  len : ℕ
  mem : ℕ → ℕ

/-- Modelled from the spec (§4.2): `MmapArea::new` allocates a
zero-initialized mapping of `total_len` bytes (the OS-failure path carries no
state and is omitted). -/
def MmapArea.new (total_len : ℕ) (_huge : Bool) : MmapArea :=
  { len := total_len, mem := fun _ => 0 }

/-- The success path of `UmemBuilderWithMmap::create_umem` from the source:
the kernel registration (`xsk_umem__create`, external) succeeded and the
`Umem` is assembled with the freshly built descriptor pool. -/
def create_umem (c : Config) (m : MmapArea) : Umem :=
  { mem := m.mem
    frameDescs := some (createFrameDescs c.frame_count c.frame_size)
    frame_count := c.frame_count
    frame_size := c.frame_size }

/-- Producer ring state (`xsk_ring_prod`): slot array indexed by masked
cursor, producer/consumer cursors, and the kernel-maintained needs-wakeup
flag. -/
structure ProdRing where
  size : ℕ
  slots : ℕ → ℕ
  producer : ℕ
  consumer : ℕ
  needWakeup : Bool

/-- Modelled from the spec (§4.4 step 2): `_xsk_prod_nb_free` — free slots
are capacity minus in-flight entries. -/
def ProdRing.nbFree (r : ProdRing) : ℕ :=
  r.size - (r.producer - r.consumer)

/-- Modelled from the spec (§4.4 step 4): `_xsk_ring_prod__reserve` reserves
all `nb` requested slots starting at the producer cursor when they are free,
otherwise reserves none; the returned count is authoritative. -/
def ProdRing.reserve (r : ProdRing) (nb : ℕ) : ℕ × ℕ :=
  if nb ≤ r.nbFree then (nb, r.producer) else (0, r.producer)

/-- `*_xsk_ring_prod__fill_addr(r, idx) = a`: store `a` in the slot at masked
index `idx`. -/
def ProdRing.writeAddr (r : ProdRing) (idx a : ℕ) : ProdRing :=
  { r with slots := fun j => if j = idx % r.size then a else r.slots j }

/-- Modelled from the spec (§4.4 step 6): `_xsk_ring_prod__submit` commits
`nb` slots by advancing the producer cursor. -/
def ProdRing.submit (r : ProdRing) (nb : ℕ) : ProdRing :=
  { r with producer := r.producer + nb }

/-- The for-loop of `FillQueue::produce` (source lines 236-244): pop `cnt`
descriptors from the front of the deque, writing each `addr` into consecutive
ring slots.  `none` models the `unwrap` panic on an exhausted deque. -/
def fillLoop : ℕ → ProdRing → List FrameDesc → ℕ → Option (ProdRing × List FrameDesc)
  | 0, r, descs, _ => some (r, descs)
  | cnt + 1, r, descs, idx =>
    match descs with
    | [] => none
    | d :: rest => fillLoop cnt (r.writeAddr idx d.addr) rest (idx + 1)

/-- `FillQueue::produce` from the source. -/
def FillQueue.produce (r : ProdRing) (descs : List FrameDesc) (nb : ℕ) :
    Option (ℕ × ProdRing × List FrameDesc) :=
  if nb = 0 then some (0, r, descs)
  else
    let nb2 := min r.nbFree (min nb descs.length)
    if nb2 = 0 then some (0, r, descs)
    else
      let res := r.reserve nb2
      match fillLoop res.1 r descs res.2 with
      | none => none
      | some (r2, descs2) =>
        some (res.1, if 0 < res.1 then r2.submit res.1 else r2, descs2)

/-- `FillQueue::needs_wakeup` from the source: reads the kernel-maintained
flag. -/
def FillQueue.needs_wakeup (r : ProdRing) : Bool :=
  r.needWakeup

/-- Result of `FillQueue::produce_and_wakeup`: whether the poll call was
performed, the returned `io::Result`, and the ring/deque state afterwards.
`IoError` is opaque and modelled as `Unit`. -/
structure PwOutcome where
  polled : Bool
  result : Except Unit ℕ
  ring : ProdRing
  descs : List FrameDesc

/-- `FillQueue::produce_and_wakeup` from the source.  `pollOutcome` is the
result of the external `poll_read` collaborator, consulted only if the poll
is actually performed. -/
def FillQueue.produce_and_wakeup (r : ProdRing) (descs : List FrameDesc)
    (nb : ℕ) (pollOutcome : Except Unit Unit) : Option PwOutcome :=
  match FillQueue.produce r descs nb with
  | none => none
  | some (cnt, r2, descs2) =>
    if decide (0 < cnt) && FillQueue.needs_wakeup r2 then
      match pollOutcome with
      | .error e => some ⟨true, .error e, r2, descs2⟩
      | .ok _ => some ⟨true, .ok cnt, r2, descs2⟩
    else some ⟨false, .ok cnt, r2, descs2⟩

/-- Consumer ring state (`xsk_ring_cons`). -/
structure ConsRing where
  size : ℕ
  slots : ℕ → ℕ
  producer : ℕ
  consumer : ℕ

/-- Modelled from the spec (§4.5 step 2): completed entries available are the
kernel producer cursor minus the local consumer cursor. -/
def ConsRing.nbAvail (r : ConsRing) : ℕ :=
  r.producer - r.consumer

/-- Modelled from the spec (§4.5 step 2): `_xsk_ring_cons__peek` yields
`min(available, nb)` entries starting at the consumer cursor. -/
def ConsRing.peek (r : ConsRing) (nb : ℕ) : ℕ × ℕ :=
  (min r.nbAvail nb, r.consumer)

/-- `*_xsk_ring_cons__comp_addr(r, idx)`: read the slot at masked index. -/
def ConsRing.readAddr (r : ConsRing) (idx : ℕ) : ℕ :=
  r.slots (idx % r.size)

/-- Modelled from the spec (§4.5 step 4): `_xsk_ring_cons__release` advances
the consumer cursor by `nb`. -/
def ConsRing.release (r : ConsRing) (nb : ℕ) : ConsRing :=
  { r with consumer := r.consumer + nb }

/-- The for-loop of `CompQueue::consume` (source lines 290-298): read `cnt`
completed addresses and append fresh descriptors to the back of the deque. -/
def compLoop : ℕ → ConsRing → List FrameDesc → ℕ → List FrameDesc
  | 0, _, descs, _ => descs
  | cnt + 1, r, descs, idx =>
    compLoop cnt r (descs ++ [⟨r.readAddr idx, 0, 0⟩]) (idx + 1)

/-- `CompQueue::consume` from the source. -/
def CompQueue.consume (r : ConsRing) (descs : List FrameDesc) (nb : ℕ) :
    ℕ × ConsRing × List FrameDesc :=
  if nb = 0 then (0, r, descs)
  else
    let p := r.peek nb
    let descs2 := compLoop p.1 r descs p.2
    (p.1, if 0 < p.1 then r.release p.1 else r, descs2)

/-! ### Helper lemmas -/

/-- Adding a positive offset smaller than the modulus changes the residue. -/
theorem add_mod_ne_of_lt (idx m n : ℕ) (h0 : 0 < m) (hn : m < n) :
    (idx + m) % n ≠ idx % n := by
  intro h
  have hmod : Nat.ModEq n idx (idx + m) := h.symm
  have hdvd : n ∣ idx + m - idx :=
    (Nat.modEq_iff_dvd' (Nat.le_add_right idx m)).mp hmod
  rw [Nat.add_sub_cancel_left] at hdvd
  have := Nat.le_of_dvd h0 hdvd
  omega

/-- Full characterization of `fillLoop`: with enough descriptors it never
panics, pops exactly `cnt` from the front, preserves the cursors and the
flag, leaves slots outside the write window untouched, and (when `cnt` fits
the ring) masked slot `idx + j` ends up holding the `j`-th popped address. -/
theorem fillLoop_spec (cnt : ℕ) :
    ∀ (descs : List FrameDesc) (r : ProdRing) (idx : ℕ),
      cnt ≤ descs.length →
      ∃ r2, fillLoop cnt r descs idx = some (r2, descs.drop cnt) ∧
        r2.size = r.size ∧ r2.producer = r.producer ∧
        r2.consumer = r.consumer ∧ r2.needWakeup = r.needWakeup ∧
        (∀ p, (∀ k, k < cnt → p ≠ (idx + k) % r.size) → r2.slots p = r.slots p) ∧
        (∀ j, j < cnt → cnt ≤ r.size →
          r2.slots ((idx + j) % r.size) =
            ((descs.take cnt).map FrameDesc.addr).getD j 0) := by
  induction cnt with
  | zero =>
    intro descs r idx _
    exact ⟨r, rfl, rfl, rfl, rfl, rfl, fun p _ => rfl,
      fun j hj _ => absurd hj (Nat.not_lt_zero j)⟩
  | succ c ih =>
    intro descs r idx h
    match descs with
    | [] => simp at h
    | d :: rest =>
      have h' : c ≤ rest.length := by
        simpa using Nat.le_of_succ_le_succ h
      obtain ⟨r2, heq, hsz, hpr, hco, hwk, hout, hin⟩ :=
        ih rest (r.writeAddr idx d.addr) (idx + 1) h'
      have hwsz : (r.writeAddr idx d.addr).size = r.size := rfl
      refine ⟨r2, ?_, ?_, ?_, ?_, ?_, ?_, ?_⟩
      · show fillLoop c (r.writeAddr idx d.addr) rest (idx + 1) = _
        rw [heq]
        rfl
      · rw [hsz]; rfl
      · rw [hpr]; rfl
      · rw [hco]; rfl
      · rw [hwk]; rfl
      · intro p hp
        have h2 : r2.slots p = (r.writeAddr idx d.addr).slots p := by
          apply hout
          intro k hk
          have : idx + 1 + k = idx + (k + 1) := by omega
          rw [hwsz, this]
          exact hp (k + 1) (by omega)
        rw [h2]
        show (if p = idx % r.size then d.addr else r.slots p) = r.slots p
        rw [if_neg]
        have := hp 0 (Nat.succ_pos c)
        simpa using this
      · intro j hj hsize
        match j with
        | 0 =>
          have h2 : r2.slots ((idx + 0) % r.size) =
              (r.writeAddr idx d.addr).slots ((idx + 0) % r.size) := by
            apply hout
            intro k hk
            rw [hwsz]
            have hne : (idx + 1 + k) % r.size ≠ (idx + 0) % r.size := by
              have : idx + 1 + k = (idx + 0) + (1 + k) := by omega
              rw [this]
              exact add_mod_ne_of_lt (idx + 0) (1 + k) r.size (by omega) (by omega)
            exact fun hcontra => hne hcontra.symm
          rw [h2]
          show (if (idx + 0) % r.size = idx % r.size then d.addr else _) = _
          rw [if_pos (by rw [Nat.add_zero])]
          simp [List.take_succ_cons]
        | j' + 1 =>
          have h2 := hin j' (by omega) (by rw [hwsz]; omega)
          have harg : idx + 1 + j' = idx + (j' + 1) := by omega
          rw [harg, hwsz] at h2
          rw [h2]
          simp [List.take_succ_cons]

/-- Expansion of the `CompQueue::consume` loop: it appends, in order, one
fresh zero-length descriptor per completed address read at consecutive masked
indices. -/
theorem compLoop_spec (cnt : ℕ) :
    ∀ (r : ConsRing) (descs : List FrameDesc) (idx : ℕ),
      compLoop cnt r descs idx =
        descs ++ (List.range cnt).map (fun j => ⟨r.readAddr (idx + j), 0, 0⟩) := by
  induction cnt with
  | zero => intro r descs idx; simp [compLoop]
  | succ c ih =>
    intro r descs idx
    show compLoop c r (descs ++ [⟨r.readAddr idx, 0, 0⟩]) (idx + 1) = _
    rw [ih, List.range_succ_eq_map]
    have harg : ∀ j : ℕ, idx + 1 + j = idx + Nat.succ j := fun j => by omega
    simp [List.map_map, Function.comp, harg]

/-- The `j`-th element of the descriptor pool built by `create_umem`. -/
theorem createFrameDescs_getElem (frame_count frame_size j : ℕ)
    (h : j < frame_count) :
    (createFrameDescs frame_count frame_size)[j]? =
      some ⟨(j * frame_size) % U32_MOD, 0, 0⟩ := by
  unfold createFrameDescs
  rw [List.getElem?_map, List.getElem?_range h]
  rfl

/-! ### Claim theorems -/

/-- Claim C10: in `FillQueue::produce` the pop from the front of the caller's
collection never fails: the requested count is capped by the collection's
length before reservation and the reservation never returns more than
requested, so every removal succeeds and the `unwrap` branch (modelled as
`none`) is unreachable. -/
theorem fillQueue_produce_never_panics (r : ProdRing) (descs : List FrameDesc)
    (nb : ℕ) : (FillQueue.produce r descs nb).isSome = true := by
  unfold FillQueue.produce
  by_cases h0 : nb = 0
  · simp [h0]
  · rw [if_neg h0]
    by_cases h2 : min r.nbFree (min nb descs.length) = 0
    · simp [h2]
    · have hlen : min r.nbFree (min nb descs.length) ≤ descs.length :=
        le_trans (Nat.min_le_right _ _) (Nat.min_le_right _ _)
      have hfree : min r.nbFree (min nb descs.length) ≤ r.nbFree :=
        Nat.min_le_left _ _
      have hres : r.reserve (min r.nbFree (min nb descs.length)) =
          (min r.nbFree (min nb descs.length), r.producer) := by
        unfold ProdRing.reserve
        rw [if_pos hfree]
      obtain ⟨r2, heq, _⟩ :=
        fillLoop_spec (min r.nbFree (min nb descs.length)) descs r r.producer hlen
      simp [h2, hres, heq]

/-- Claim C4: `FillQueue::produce` with a zero request, or with a non-zero
request but an empty input collection, returns 0, advances no cursor and
touches neither the collection nor any ring slot. -/
theorem fillQueue_produce_zero_noop (r : ProdRing) (descs : List FrameDesc)
    (nb : ℕ) :
    FillQueue.produce r descs 0 = some (0, r, descs) ∧
    FillQueue.produce r [] nb = some (0, r, []) := by
  constructor
  · simp [FillQueue.produce]
  · by_cases h0 : nb = 0 <;> simp [FillQueue.produce, h0]

/-- Claim C3: a successful `FillQueue::produce` returns a count bounded by
the free slots, the request and the collection's length; it removes exactly
that many descriptors from the front of the collection in FIFO order, writes
their addresses unchanged into the consecutively reserved slots in the same
order, and advances the producer cursor by exactly that count. -/
theorem fillQueue_produce_spec (r : ProdRing) (descs : List FrameDesc)
    (nb cnt : ℕ) (r2 : ProdRing) (descs2 : List FrameDesc)
    (hp : FillQueue.produce r descs nb = some (cnt, r2, descs2)) :
    cnt ≤ min r.nbFree (min nb descs.length) ∧
    descs2 = descs.drop cnt ∧
    r2.producer = r.producer + cnt ∧
    (List.range cnt).map (fun j => r2.slots ((r.producer + j) % r.size)) =
      (descs.take cnt).map FrameDesc.addr := by
  unfold FillQueue.produce at hp
  by_cases h0 : nb = 0
  · rw [if_pos h0] at hp
    simp only [Option.some.injEq, Prod.mk.injEq] at hp
    obtain ⟨h1, h2, h3⟩ := hp
    subst h1; subst h2; subst h3
    simp
  · rw [if_neg h0] at hp
    by_cases h2 : min r.nbFree (min nb descs.length) = 0
    · simp only [h2, if_pos rfl] at hp
      simp only [reduceIte, Option.some.injEq, Prod.mk.injEq] at hp
      obtain ⟨h1, h3, h4⟩ := hp
      subst h1; subst h3; subst h4
      simp
    · have hlen : min r.nbFree (min nb descs.length) ≤ descs.length :=
        le_trans (Nat.min_le_right _ _) (Nat.min_le_right _ _)
      have hfree : min r.nbFree (min nb descs.length) ≤ r.nbFree :=
        Nat.min_le_left _ _
      have hsize : min r.nbFree (min nb descs.length) ≤ r.size :=
        le_trans hfree (Nat.sub_le _ _)
      have hres : r.reserve (min r.nbFree (min nb descs.length)) =
          (min r.nbFree (min nb descs.length), r.producer) := by
        unfold ProdRing.reserve
        rw [if_pos hfree]
      obtain ⟨rr, heq, hsz, hpr, hco, hwk, hout, hin⟩ :=
        fillLoop_spec (min r.nbFree (min nb descs.length)) descs r r.producer hlen
      rw [if_neg h2] at hp
      simp only [hres, heq, Option.some.injEq, Prod.mk.injEq] at hp
      rw [if_pos (Nat.pos_of_ne_zero h2)] at hp
      obtain ⟨h1, h3, h4⟩ := hp
      subst h1; subst h3; subst h4
      refine ⟨le_refl _, rfl, ?_, ?_⟩
      · show rr.producer + _ = _
        rw [hpr]
      · apply List.ext_getElem
        · simp [Nat.min_eq_left hlen]
        · intro n h1 h2'
          have hn : n < min r.nbFree (min nb descs.length) := by simpa using h1
          have hlt : n < ((descs.take (min r.nbFree (min nb descs.length))).map
              FrameDesc.addr).length := by
            simpa [Nat.min_eq_left hlen] using hn
          rw [List.getElem_map, List.getElem_range]
          show rr.slots ((r.producer + n) % r.size) = _
          rw [hin n hn hsize, List.getD_eq_getElem _ _ hlt]

/-- Claim C3 witness: a concrete ring of size 4 and a two-descriptor
collection. -/
theorem fillQueue_produce_spec_witness :
    2 ≤ min (ProdRing.nbFree ⟨4, fun _ => 0, 0, 0, false⟩)
        (min 2 ([⟨10, 0, 0⟩, ⟨20, 0, 0⟩] : List FrameDesc).length) ∧
    ([] : List FrameDesc) = ([⟨10, 0, 0⟩, ⟨20, 0, 0⟩] : List FrameDesc).drop 2 ∧
    ((((⟨4, fun _ => 0, 0, 0, false⟩ : ProdRing).writeAddr 0 10).writeAddr 1
        20).submit 2).producer =
      (⟨4, fun _ => 0, 0, 0, false⟩ : ProdRing).producer + 2 ∧
    (List.range 2).map (fun j =>
        ((((⟨4, fun _ => 0, 0, 0, false⟩ : ProdRing).writeAddr 0 10).writeAddr 1
            20).submit 2).slots
          (((⟨4, fun _ => 0, 0, 0, false⟩ : ProdRing).producer + j) %
            (⟨4, fun _ => 0, 0, 0, false⟩ : ProdRing).size)) =
      (([⟨10, 0, 0⟩, ⟨20, 0, 0⟩] : List FrameDesc).take 2).map FrameDesc.addr :=
  fillQueue_produce_spec ⟨4, fun _ => 0, 0, 0, false⟩ [⟨10, 0, 0⟩, ⟨20, 0, 0⟩] 2 2
    ((((⟨4, fun _ => 0, 0, 0, false⟩ : ProdRing).writeAddr 0 10).writeAddr 1
        20).submit 2) [] (by rfl)

/-- Claim C7: `produce_and_wakeup` polls exactly when the inner `produce`
moved at least one frame and the kernel-maintained needs-wakeup flag is set;
a poll failure is returned as the error, but the ring state and the caller's
collection keep the effects of `produce` — nothing is rolled back. -/
theorem fillQueue_produce_and_wakeup_spec (r : ProdRing)
    (descs : List FrameDesc) (nb : ℕ) (pollOutcome : Except Unit Unit)
    (cnt : ℕ) (r2 : ProdRing) (descs2 : List FrameDesc)
    (hp : FillQueue.produce r descs nb = some (cnt, r2, descs2)) :
    FillQueue.produce_and_wakeup r descs nb pollOutcome =
      some ⟨decide (0 < cnt) && FillQueue.needs_wakeup r2,
        if decide (0 < cnt) && FillQueue.needs_wakeup r2 then
          Except.map (fun _ => cnt) pollOutcome
        else .ok cnt,
        r2, descs2⟩ := by
  unfold FillQueue.produce_and_wakeup
  rw [hp]
  by_cases hb : (decide (0 < cnt) && FillQueue.needs_wakeup r2) = true
  · cases pollOutcome with
    | error e => simp [hb, Except.map]
    | ok u => simp [hb, Except.map]
  · simp only [Bool.not_eq_true] at hb
    simp [hb]

/-- Claim C7 witness: a ring with the needs-wakeup flag set and a failing
poll; the produced frame stays committed and the error is surfaced. -/
theorem fillQueue_produce_and_wakeup_spec_witness :
    FillQueue.produce_and_wakeup ⟨4, fun _ => 0, 0, 0, true⟩ [⟨7, 0, 0⟩] 1
        (.error ()) =
      some ⟨true, .error (),
        (((⟨4, fun _ => 0, 0, 0, true⟩ : ProdRing).writeAddr 0 7).submit 1),
        []⟩ :=
  fillQueue_produce_and_wakeup_spec ⟨4, fun _ => 0, 0, 0, true⟩ [⟨7, 0, 0⟩] 1
    (.error ()) 1
    (((⟨4, fun _ => 0, 0, 0, true⟩ : ProdRing).writeAddr 0 7).submit 1) []
    (by rfl)

/-- Claim C5: `CompQueue::consume` returns `min(available, max)` entries,
appends exactly that many freshly constructed descriptors (address read from
the ring slot, `len = 0`, `options = 0`) to the back of the collection,
releases exactly that many slots, and with `max = 0` does nothing. -/
theorem compQueue_consume_spec (r : ConsRing) (descs : List FrameDesc)
    (nb : ℕ) :
    (CompQueue.consume r descs nb).1 = min r.nbAvail nb ∧
    (CompQueue.consume r descs nb).2.1.size = r.size ∧
    (CompQueue.consume r descs nb).2.1.slots = r.slots ∧
    (CompQueue.consume r descs nb).2.1.producer = r.producer ∧
    (CompQueue.consume r descs nb).2.1.consumer =
      r.consumer + min r.nbAvail nb ∧
    (CompQueue.consume r descs nb).2.2 =
      descs ++ (List.range (min r.nbAvail nb)).map
        (fun j => ⟨r.readAddr (r.consumer + j), 0, 0⟩) ∧
    CompQueue.consume r descs 0 = (0, r, descs) := by
  have hzero : CompQueue.consume r descs 0 = (0, r, descs) := by
    simp [CompQueue.consume]
  by_cases h0 : nb = 0
  · subst h0
    rw [hzero]
    simp
  · have hmain : CompQueue.consume r descs nb =
        (min r.nbAvail nb,
         if 0 < min r.nbAvail nb then r.release (min r.nbAvail nb) else r,
         descs ++ (List.range (min r.nbAvail nb)).map
           (fun j => ⟨r.readAddr (r.consumer + j), 0, 0⟩)) := by
      unfold CompQueue.consume
      rw [if_neg h0]
      show (min r.nbAvail nb,
        if 0 < min r.nbAvail nb then r.release (min r.nbAvail nb) else r,
        compLoop (min r.nbAvail nb) r descs r.consumer) = _
      rw [compLoop_spec]
    rw [hmain]
    refine ⟨rfl, ?_, ?_, ?_, ?_, rfl, hzero⟩
    · by_cases hc : 0 < min r.nbAvail nb
      · simp [hc, ConsRing.release]
      · simp [hc]
    · by_cases hc : 0 < min r.nbAvail nb
      · simp [hc, ConsRing.release]
      · simp [hc]
    · by_cases hc : 0 < min r.nbAvail nb
      · simp [hc, ConsRing.release]
      · simp [hc]
    · by_cases hc : 0 < min r.nbAvail nb
      · simp [hc, ConsRing.release]
      · have h1 : min r.nbAvail nb = 0 := by omega
        simp [h1]

/-- Claim C6: `copy_data_to_frame` fails with `InvalidDataLen` and leaves
every byte unchanged whenever `data.len() > frame_size`; when the length is
admissible and the address passes the code's address check, it copies `data`
into the leading `data.len()` bytes at offset `addr` and returns `Ok`. -/
theorem umem_copy_data_to_frame_spec (u : Umem) (addr : ℕ) (data : List ℕ) :
    (u.frame_size < data.length →
      u.copy_data_to_frame addr data = (u, .error .invalidDataLen)) ∧
    (data.length ≤ u.frame_size → addr ≤ frameAddrBound u.frame_count →
      u.copy_data_to_frame addr data = (u.writeBytes addr data, .ok ()) ∧
      (List.range data.length).map
          (fun i => (u.writeBytes addr data).mem (addr + i)) = data) := by
  constructor
  · intro hlen
    unfold Umem.copy_data_to_frame
    rw [if_pos hlen]
  · intro hlen haddr
    constructor
    · unfold Umem.copy_data_to_frame
      rw [if_neg (by omega)]
      unfold Umem.frame_ref_mut
      rw [if_neg (by omega)]
    · apply List.ext_getElem
      · simp
      · intro n h1 h2
        have hn : n < data.length := by simpa using h1
        rw [List.getElem_map, List.getElem_range]
        show (if addr ≤ addr + n ∧ addr + n < addr + data.length then
            data.getD (addr + n - addr) 0 else u.mem (addr + n)) = _
        rw [if_pos ⟨Nat.le_add_right _ _, by omega⟩, Nat.add_sub_cancel_left]
        exact List.getD_eq_getElem data 0 hn

/-- Claim C6 witness: copying two bytes into frame 0 of an 8-frame UMEM, and
an oversized copy rejected with `InvalidDataLen`. -/
theorem umem_copy_data_to_frame_spec_witness :
    (Umem.copy_data_to_frame ⟨fun _ => 0, none, 8, 2048⟩ 0
        (List.replicate 3000 5) =
      (⟨fun _ => 0, none, 8, 2048⟩, .error .invalidDataLen)) ∧
    (Umem.copy_data_to_frame ⟨fun _ => 0, none, 8, 2048⟩ 0 [1, 2] =
        ((⟨fun _ => 0, none, 8, 2048⟩ : Umem).writeBytes 0 [1, 2], .ok ()) ∧
      (List.range ([1, 2] : List ℕ).length).map
          (fun i => ((⟨fun _ => 0, none, 8, 2048⟩ : Umem).writeBytes 0
            [1, 2]).mem (0 + i)) = [1, 2]) :=
  ⟨(umem_copy_data_to_frame_spec ⟨fun _ => 0, none, 8, 2048⟩ 0
      (List.replicate 3000 5)).1 (by simp only [List.length_replicate]; decide),
   (umem_copy_data_to_frame_spec ⟨fun _ => 0, none, 8, 2048⟩ 0 [1, 2]).2
      (by decide) (by decide)⟩

/-- Claim C9: in `copy_data_to_frame` the data-length check runs before the
address check — an oversized payload yields `InvalidDataLen` even when the
address also fails the code's address check; an admissible length with a
rejected address yields `InvalidFrameAddr`; in both error cases no byte is
written. -/
theorem umem_copy_check_order (u : Umem) (addr : ℕ) (data : List ℕ) :
    (u.frame_size < data.length → frameAddrBound u.frame_count < addr →
      u.copy_data_to_frame addr data = (u, .error .invalidDataLen)) ∧
    (data.length ≤ u.frame_size → frameAddrBound u.frame_count < addr →
      u.copy_data_to_frame addr data = (u, .error .invalidFrameAddr)) := by
  constructor
  · intro hlen _
    unfold Umem.copy_data_to_frame
    rw [if_pos hlen]
  · intro hlen haddr
    unfold Umem.copy_data_to_frame
    rw [if_neg (by omega)]
    unfold Umem.frame_ref_mut
    rw [if_pos haddr]

/-- Claim C9 witness: address 4096 fails the code's address check of an
8-frame UMEM; with an oversized payload the result is `InvalidDataLen`, with
an admissible one it is `InvalidFrameAddr`, and the state is untouched. -/
theorem umem_copy_check_order_witness :
    (Umem.copy_data_to_frame ⟨fun _ => 0, none, 8, 2048⟩ 4096
        (List.replicate 3000 5) =
      (⟨fun _ => 0, none, 8, 2048⟩, .error .invalidDataLen)) ∧
    (Umem.copy_data_to_frame ⟨fun _ => 0, none, 8, 2048⟩ 4096 [1, 2] =
      (⟨fun _ => 0, none, 8, 2048⟩, .error .invalidFrameAddr)) :=
  ⟨(umem_copy_check_order ⟨fun _ => 0, none, 8, 2048⟩ 4096
      (List.replicate 3000 5)).1 (by simp only [List.length_replicate]; decide) (by decide),
   (umem_copy_check_order ⟨fun _ => 0, none, 8, 2048⟩ 4096 [1, 2]).2
      (by decide) (by decide)⟩

/-- Claim C1 evaluation: the address check of `frame_ref` / `frame_ref_mut`
compares the byte offset `addr` against `frame_count - 1`.  On a UMEM with 8
frames of 2048 bytes it therefore rejects 2048 — the valid base address of
frame 1 (`2048 % 2048 = 0`, `2048 / 2048 < 8`) — with `InvalidFrameAddr`,
while accepting the unaligned address 5 (`5 % 2048 ≠ 0`). -/
theorem frame_ref_bounds_check_eval :
    ((⟨fun _ => 0, none, 8, 2048⟩ : Umem).frame_ref 2048 =
      .error .invalidFrameAddr) ∧
    ((⟨fun _ => 0, none, 8, 2048⟩ : Umem).frame_ref_mut 2048 =
      .error .invalidFrameAddr) ∧
    ((⟨fun _ => 0, none, 8, 2048⟩ : Umem).frame_ref 5).toOption.isSome = true ∧
    2048 % 2048 = 0 ∧ 2048 / 2048 < 8 ∧ 5 % 2048 ≠ 0 :=
  ⟨rfl, rfl, rfl, by norm_num, by norm_num, by norm_num⟩

/-- Claim C2 evaluation: the pool addresses are computed as `i * frame_size`
in u32 arithmetic.  For the valid configuration with `frame_count = 2^21 + 1`
and `frame_size = 2048` the descriptor at index `2^21` of the pool handed out
by `consume_frame_descs` carries address `(2^21 * 2048) % 2^32 = 0` — not the
spec's `2^21 * 2048 = 2^32` (debug builds panic on this multiplication
instead).  The count and take-once behaviour themselves are as claimed. -/
theorem consume_frame_descs_overflow_eval :
    ((create_umem ⟨2048, 2097153, 0, 4096, 4096, false⟩
        (MmapArea.new 4294969344 false)).consume_frame_descs).1.map
      (fun l => l[2097152]?) = some (some ⟨0, 0, 0⟩) ∧
    ((create_umem ⟨2048, 2097153, 0, 4096, 4096, false⟩
        (MmapArea.new 4294969344 false)).consume_frame_descs).1.map
      List.length = some 2097153 ∧
    (((create_umem ⟨2048, 2097153, 0, 4096, 4096, false⟩
        (MmapArea.new 4294969344 false)).consume_frame_descs).2).frameDescs =
      none ∧
    2097152 * 2048 ≠ 0 ∧
    Config.valid ⟨2048, 2097153, 0, 4096, 4096, false⟩ = true := by
  refine ⟨?_, ?_, rfl, by norm_num, by decide⟩
  · show some ((createFrameDescs 2097153 2048)[2097152]?) = _
    rw [createFrameDescs_getElem 2097153 2048 2097152 (by norm_num)]
    norm_num [U32_MOD]
  · show some (createFrameDescs 2097153 2048).length = _
    unfold createFrameDescs
    rw [List.length_map, List.length_range]

/-- Claim C8 evaluation: the configuration with `frame_count = 2^21 + 1` and
`frame_size = 2048` is valid (its product fits the 64-bit address width and
equals the mapped region's length), yet the pool address `2^21 * frame_size`
does not fit the u32 arithmetic in which `create_umem` evaluates it: the
computed value is `(2^21 * 2048) % 2^32 ≠ 2^21 * 2048`. -/
theorem create_umem_addr_overflow_eval :
    Config.valid ⟨2048, 2097153, 0, 4096, 4096, false⟩ = true ∧
    (MmapArea.new
        (Config.umem_len ⟨2048, 2097153, 0, 4096, 4096, false⟩) false).len =
      2097153 * 2048 ∧
    2097153 * 2048 < 2 ^ 64 ∧
    ¬2097152 * 2048 < U32_MOD ∧
    (createFrameDescs 2097153 2048)[2097152]? =
      some ⟨(2097152 * 2048) % U32_MOD, 0, 0⟩ ∧
    (2097152 * 2048) % U32_MOD ≠ 2097152 * 2048 :=
  ⟨by decide, rfl, by norm_num, by norm_num [U32_MOD],
   createFrameDescs_getElem 2097153 2048 2097152 (by norm_num),
   by norm_num [U32_MOD]⟩

end Xsk
